import Mathlib

/-!
Verification of the priority-ordered pickup and state-transition engine of the
davideasaf-marketplace repository (two structurally identical backends:
`linear-dev-flow` and `github-dev-flow`).

Shallow embedding notes.

Text: Python strings are modelled by Lean `String`, but every operation the
source applies to them (`str.lower`, `str.strip`, `str.replace`, ordering of
ISO-8601 timestamp strings) is embedded as a structurally recursive function
over the underlying character list, mirroring the Python semantics
(code-point-wise ASCII lowering, whitespace stripping at both ends,
code-point lexicographic comparison).  The state names and priority labels in
the program are ASCII, where Python `str.lower` agrees with
character-by-character `Char.toLower`.

Sorting: Python `sorted(xs, key=k)` / `list.sort(key=k)` is a stable sort by
the key tuple.  It is embedded as `stableSort`, a structurally recursive
stable insertion sort by the same boolean key order; stability (ties keep
their original relative order) and sortedness are proved below, so
`stableSort` has exactly the input/output behaviour Python guarantees for its
(also stable) sort.

Fallible paths: Python code that terminates the process on a backend error
(`sys.exit(1)` after printing) or raises is embedded with explicit outcome
types (`MoveOutcome`, `Except`).  Backend reads (`api_list_issues`,
`get_workflow_states`, ...) are I/O; they are passed in as snapshot data or as
an explicit `fetch` function.
-/

/-- Embedding of Python `str.lower` (code-point-wise lowering; exact for the
ASCII state names and labels this program uses). -/
def lowerStr (s : String) : String := ⟨s.data.map Char.toLower⟩

/-- Embedding of Python `str.strip` (drop whitespace from both ends). -/
def trimStr (s : String) : String :=
  ⟨((s.data.dropWhile Char.isWhitespace).reverse.dropWhile Char.isWhitespace).reverse⟩

/-- Code-point lexicographic `<=` on character lists: the comparison Python
uses for `str` (and hence for ISO-8601 `createdAt` timestamps in sort keys). -/
def charListLE : List Char → List Char → Bool
  | [], _ => true
  | _ :: _, [] => false
  | a :: as, b :: bs => if a < b then true else if a = b then charListLE as bs else false

/-- Python string `<=`, on the underlying character lists. -/
def strLE (a b : String) : Bool := charListLE a.data b.data

/-- Python tuple comparison on a `(rank, createdAt)` sort key:
lexicographic on the pair. -/
def keyLE (x y : Nat × String) : Bool :=
  if x.1 < y.1 then true else if x.1 = y.1 then strLE x.2 y.2 else false

/-- Stable insertion step: `a` goes in front of the first element `b` with
`le a b` (so an element never jumps in front of an earlier tied element). -/
def insertSorted (le : α → α → Bool) (a : α) : List α → List α
  | [] => [a]
  | b :: l => if le a b then a :: b :: l else b :: insertSorted le a l

/-- Embedding of Python `sorted(xs, key=k)` as a stable sort by the boolean
order `le` (which, at every use site below, compares the Python sort keys). -/
def stableSort (le : α → α → Bool) : List α → List α
  | [] => []
  | a :: l => insertSorted le a (stableSort le l)

namespace WorkflowStates

/-- `WORKFLOW_STATES` from `workflow_states.py`: canonical states in order. -/
def WORKFLOW_STATES : List String :=
  ["Backlog", "Todo", "Dev Ready", "In Progress", "In Review", "Done"]

/-- `STATE_ALIASES` from `workflow_states.py` (dict as association list). -/
def STATE_ALIASES : List (String × String) :=
  [("backlog", "Backlog"),
   ("todo", "Todo"),
   ("to do", "Todo"),
   ("to-do", "Todo"),
   ("dev ready", "Dev Ready"),
   ("devready", "Dev Ready"),
   ("ready", "Dev Ready"),
   ("ready for dev", "Dev Ready"),
   ("in progress", "In Progress"),
   ("inprogress", "In Progress"),
   ("in-progress", "In Progress"),
   ("wip", "In Progress"),
   ("in review", "In Review"),
   ("inreview", "In Review"),
   ("in-review", "In Review"),
   ("review", "In Review"),
   ("done", "Done"),
   ("completed", "Done"),
   ("complete", "Done"),
   ("closed", "Done")]

/-- `AGENT_PICKUP_STATES` from `workflow_states.py`. -/
def AGENT_PICKUP_STATES : List String := ["Todo", "Dev Ready"]

/-- `PRIORITY_ORDER` from `workflow_states.py`: Linear priority code to sort
rank (0 = No priority ranks 5/lowest, 1 = Urgent ranks 1/highest). -/
def PRIORITY_ORDER : List (Int × Nat) := [(0, 5), (1, 1), (2, 2), (3, 3), (4, 4)]

/-- `normalize_state_name` from `workflow_states.py`: lower-case and strip,
look up the alias table, then fall back to a case-insensitive match against
the canonical list; `none` when unrecognized. -/
def normalize_state_name (name : String) : Option String :=
  let normalized := trimStr (lowerStr name)
  match STATE_ALIASES.lookup normalized with
  | some canonical => some canonical
  | none => WORKFLOW_STATES.find? (fun st => lowerStr st == normalized)

/-- `valid_backwards` from `is_valid_transition` in `workflow_states.py`. -/
def VALID_BACKWARDS : List (String × String) :=
  [("In Review", "Dev Ready"), ("In Progress", "Dev Ready"), ("Dev Ready", "Todo")]

/-- `is_valid_transition` from `workflow_states.py`: both endpoints must
normalize; forward or lateral moves (target index at least source index) are
valid; otherwise only the fixed backward allow-list. -/
def is_valid_transition (from_state to_state : String) : Bool :=
  match normalize_state_name from_state, normalize_state_name to_state with
  | some from_norm, some to_norm =>
    let from_idx := WORKFLOW_STATES.indexOf from_norm
    let to_idx := WORKFLOW_STATES.indexOf to_norm
    if from_idx ≤ to_idx then true
    else VALID_BACKWARDS.contains (from_norm, to_norm)
  | _, _ => false

/-- `get_priority_rank` from `workflow_states.py`:
`PRIORITY_ORDER.get(priority, 5)`. -/
def get_priority_rank (priority : Int) : Nat :=
  (PRIORITY_ORDER.lookup priority).getD 5

/-- The fields of a Linear issue dict that the core reads.  `Option` models a
possibly missing dict key (the source reads them with `.get` and a default).
`pickupState` models the `_pickup_state` tag added by `pickup_issue`. -/
structure LIssue where
  identifier : String
  priority : Option Int
  createdAt : Option String
  stateName : Option String
  pickupState : Option String
deriving DecidableEq

/-- `sort_key` from `sort_issues_by_priority`:
`(get_priority_rank(issue.get("priority", 0)), issue.get("createdAt", ""))`. -/
def sort_key (issue : LIssue) : Nat × String :=
  (get_priority_rank (issue.priority.getD 0), issue.createdAt.getD "")

/-- The boolean order on issues induced by `sort_key` (Python tuple order). -/
def sort_le (a b : LIssue) : Bool := keyLE (sort_key a) (sort_key b)

/-- `sort_issues_by_priority` from `workflow_states.py`:
`sorted(issues, key=sort_key)` (a stable sort by the key). -/
def sort_issues_by_priority (issues : List LIssue) : List LIssue :=
  stableSort sort_le issues

/-- The `candidates` list computed inside `get_next_pickup_issue`: issues
whose state name normalizes to the (normalized) requested state. -/
def pickup_candidates (issues : List LIssue) (from_state : String) : List LIssue :=
  match normalize_state_name from_state with
  | none => []
  | some state_norm =>
    issues.filter (fun issue => normalize_state_name (issue.stateName.getD "") == some state_norm)

/-- `get_next_pickup_issue` from `workflow_states.py`: `none` when the
requested state is unrecognized or no issue is in it, otherwise the head of
the priority-sorted candidate list. -/
def get_next_pickup_issue (issues : List LIssue) (from_state : String) : Option LIssue :=
  match normalize_state_name from_state with
  | none => none
  | some _ =>
    let candidates := pickup_candidates issues from_state
    if candidates.isEmpty then none
    else (sort_issues_by_priority candidates).head?

end WorkflowStates

namespace LinearApi

/-- The fields of the Linear issue record that `move_issue_to_state` reads
(`issue["id"]` for the mutation; `currentState` is carried to show it is
never consulted). -/
structure IssueRef where
  id : String
  identifier : String
  currentState : String
deriving DecidableEq

/-- A workflow state as returned by `get_workflow_states` (name and backend
id). -/
structure WState where
  name : String
  id : String
deriving DecidableEq

/-- Outcome of `move_issue_to_state` in `linear_api.py`.  `issueNotFound` and
`unknownState` are the two `sys.exit(1)` paths, reached before any mutation;
`mutate issueId stateId` records the single `update_issue_state` call, the
only backend mutation the function ever issues. -/
inductive MoveOutcome where
  | issueNotFound : MoveOutcome
  | unknownState : List String → MoveOutcome
  | mutate : String → String → MoveOutcome
deriving DecidableEq

/-- `move_issue_to_state` from `linear_api.py`, with the backend reads
(issue lookup, team workflow states) passed in as data: resolve the target
case-insensitively against the team states; on failure exit listing every
available state name; on success issue the one state mutation.  No
transition-validity check appears anywhere on this path. -/
def move_issue_to_state (issue : Option IssueRef) (states : List WState)
    (target_state_name : String) : MoveOutcome :=
  match issue with
  | none => .issueNotFound
  | some iss =>
    let target_lower := trimStr (lowerStr target_state_name)
    match states.find? (fun st => lowerStr st.name == target_lower) with
    | none => .unknownState (states.map WState.name)
    | some target_state => .mutate iss.id target_state.id

end LinearApi

namespace LinearDev

open WorkflowStates

/-- The `statuses_to_check` list from `pickup_issue` in `linear_dev.py`:
`[status] if status else AGENT_PICKUP_STATES`. -/
def statuses_to_check (status : Option String) : List String :=
  match status with
  | some s => [s]
  | none => AGENT_PICKUP_STATES

/-- The `issue["_pickup_state"] = normalized` tagging in `pickup_issue`. -/
def tag_pickup_state (n : String) (issue : LIssue) : LIssue :=
  { issue with pickupState := some n }

/-- The accumulation loop of `pickup_issue` in `linear_dev.py`: for each
status, skip it when it does not normalize (`continue`), otherwise fetch the
issues in the normalized state, tag them, and append.  `fetch` stands for
`api_list_issues(team["id"], state_name=...)`. -/
def gather_issues (fetch : String → List LIssue) : List String → List LIssue
  | [] => []
  | st :: rest =>
    match normalize_state_name st with
    | none => gather_issues fetch rest
    | some n => (fetch n).map (tag_pickup_state n) ++ gather_issues fetch rest

/-- `pickup_issue` from `linear_dev.py`: gather issues from the states to
check, return `none` when nothing was gathered, else the head of the
priority-sorted list. -/
def pickup_issue (fetch : String → List LIssue) (status : Option String) : Option LIssue :=
  let all_issues := gather_issues fetch (statuses_to_check status)
  if all_issues.isEmpty then none
  else (sort_issues_by_priority all_issues).head?

/-- The same accumulation loop with the fallible backend made explicit: in
the source, `api_list_issues` terminates the process on any HTTP/GraphQL
error (`sys.exit(1)` in `graphql`), which an `Except.error` models; the
normalization check precedes the fetch, exactly as in the source. -/
def gather_issuesE (fetch : String → Except ε (List LIssue)) :
    List String → Except ε (List LIssue)
  | [] => .ok []
  | st :: rest =>
    match normalize_state_name st with
    | none => gather_issuesE fetch rest
    | some n =>
      match fetch n with
      | .error e => .error e
      | .ok issues =>
        match gather_issuesE fetch rest with
        | .error e => .error e
        | .ok others => .ok (issues.map (tag_pickup_state n) ++ others)

/-- `pickup_issue` over the fallible backend: a backend failure propagates as
`Except.error`, while the empty-result case is the distinct value
`Except.ok none`. -/
def pickup_issueE (fetch : String → Except ε (List LIssue)) (status : Option String) :
    Except ε (Option LIssue) :=
  match gather_issuesE fetch (statuses_to_check status) with
  | .error e => .error e
  | .ok all_issues =>
    if all_issues.isEmpty then .ok none
    else .ok (sort_issues_by_priority all_issues).head?

end LinearDev

namespace GhDev

/-- The fields of a GitHub issue JSON record that the core reads.  Each
project item is modelled by its optional status name (`none` for a missing or
empty `status` object).  `pickupColumn` models the `_pickup_column` tag. -/
structure GhIssue where
  number : Nat
  labels : List String
  itemStatuses : List (Option String)
  createdAt : Option String
  pickupColumn : Option String
deriving DecidableEq

/-- `PRIORITY_ORDER` from `gh_dev.py`: priority labels, highest first. -/
def PRIORITY_ORDER : List String := ["P: Critical", "P: HIGH", "P: Medium", "P: low"]

/-- `PICKUP_COLUMNS` from `gh_dev.py`. -/
def PICKUP_COLUMNS : List String := ["todo", "dev ready"]

/-- `get_project_status` from `gh_dev.py`: the lower-cased status name of the
first project item carrying one, else `none`. -/
def get_project_status (issue : GhIssue) : Option String :=
  (issue.itemStatuses.findSome? id).map lowerStr

/-- `get_priority_rank` from `gh_dev.py`: index of the first entry of
`PRIORITY_ORDER` whose lower-cased name is among the issue's lower-cased
label names; `len(PRIORITY_ORDER)` when none is. -/
def get_priority_rank (issue : GhIssue) : Nat :=
  let labels := issue.labels.map lowerStr
  match PRIORITY_ORDER.findIdx? (fun p => labels.contains (lowerStr p)) with
  | some i => i
  | none => PRIORITY_ORDER.length

/-- The status-filter normalization in `list_issues`:
`status.lower().replace("-", " ").replace("_", " ")` (both replaced patterns
are single characters, so the two replaces act character-by-character). -/
def normalize_status_filter (status : String) : String :=
  ⟨(lowerStr status).data.map (fun c => if c = '-' ∨ c = '_' then ' ' else c)⟩

/-- `list_issues` from `gh_dev.py` over a snapshot of the open issues (the
`gh` CLI fetch): with a status filter, keep the issues whose project status
equals the normalized filter. -/
def list_issues (issues : List GhIssue) (status : Option String) : List GhIssue :=
  match status with
  | none => issues
  | some s =>
    issues.filter (fun issue => get_project_status issue == some (normalize_status_filter s))

/-- `(get_priority_rank(i), i.get("createdAt", ""))`: the sort key of
`pickup_issue` in `gh_dev.py`. -/
def gh_sort_key (issue : GhIssue) : Nat × String :=
  (get_priority_rank issue, issue.createdAt.getD "")

/-- The boolean order on GitHub issues induced by the pickup sort key. -/
def gh_le (a b : GhIssue) : Bool := keyLE (gh_sort_key a) (gh_sort_key b)

/-- The `all_issues` accumulation of `pickup_issue` in `gh_dev.py`: for each
pickup column in order, the issues currently in that column, each tagged with
the column it was found in. -/
def merged_pickup_issues (issues : List GhIssue) : List GhIssue :=
  PICKUP_COLUMNS.flatMap (fun column =>
    (list_issues issues (some column)).map (fun issue => { issue with pickupColumn := some column }))

/-- `pickup_issue` from `gh_dev.py`: `none` when no issue sits in a pickup
column, else the head after the stable in-place sort by
`(priority rank, createdAt)`. -/
def pickup_issue (issues : List GhIssue) : Option GhIssue :=
  let all_issues := merged_pickup_issues issues
  if all_issues.isEmpty then none
  else (stableSort gh_le all_issues).head?

end GhDev

namespace Fixtures

/-- An issue currently in `Done` (current state is never read by the move
path, which is the point of claim C1). -/
def doneIssue : LinearApi.IssueRef := ⟨"issue-1", "ASA-1", "Done"⟩

/-- A team whose workflow states are exactly the canonical six. -/
def teamStates : List LinearApi.WState :=
  [⟨"Backlog", "st-1"⟩, ⟨"Todo", "st-2"⟩, ⟨"Dev Ready", "st-3"⟩,
   ⟨"In Progress", "st-4"⟩, ⟨"In Review", "st-5"⟩, ⟨"Done", "st-6"⟩]

/-- Claim C3 input A: state Todo, priority Medium, created first. -/
def issueA : GhDev.GhIssue := ⟨1, ["P: Medium"], [some "Todo"], some "2024-01-01", none⟩

/-- Claim C3 input B: state Dev Ready, priority Critical, created later. -/
def issueB : GhDev.GhIssue := ⟨2, ["P: Critical"], [some "Dev Ready"], some "2024-02-01", none⟩

/-- `issueB` as tagged by the pickup merge (found in column "dev ready"). -/
def taggedB : GhDev.GhIssue :=
  ⟨2, ["P: Critical"], [some "Dev Ready"], some "2024-02-01", some "dev ready"⟩

/-- Claim C5: an issue with no priority field at all, created earlier. -/
def issueX : WorkflowStates.LIssue := ⟨"ASA-1", none, some "2024-01-01", some "Dev Ready", none⟩

/-- Claim C5: an issue with the table-mapped priority code 0, created later. -/
def issueY : WorkflowStates.LIssue := ⟨"ASA-2", some 0, some "2024-01-02", some "Dev Ready", none⟩

/-- Claim C9: first of two issues tied on (rank, createdAt). -/
def tied1 : WorkflowStates.LIssue := ⟨"ASA-3", some 2, some "2024-03-01", some "Todo", none⟩

/-- Claim C9: second of the tied pair, listed after `tied1`. -/
def tied2 : WorkflowStates.LIssue := ⟨"ASA-4", some 2, some "2024-03-01", some "Todo", none⟩

end Fixtures

/-! Order-theoretic facts about the embedded Python comparisons. -/

theorem charListLE_refl (l : List Char) : charListLE l l = true := by
  induction l with
  | nil => rfl
  | cons a as ih => simp [charListLE, ih]

theorem charListLE_total (l₁ l₂ : List Char) : (charListLE l₁ l₂ || charListLE l₂ l₁) = true := by
  induction l₁ generalizing l₂ with
  | nil => cases l₂ <;> simp [charListLE]
  | cons a as ih =>
    cases l₂ with
    | nil => simp [charListLE]
    | cons b bs =>
      rcases lt_trichotomy a b with h | h | h
      · simp [charListLE, h]
      · subst h
        simpa [charListLE] using ih bs
      · simp [charListLE, h, lt_asymm h, ne_of_gt h]

theorem charListLE_trans (l₁ l₂ l₃ : List Char) (h₁ : charListLE l₁ l₂ = true)
    (h₂ : charListLE l₂ l₃ = true) : charListLE l₁ l₃ = true := by
  induction l₁ generalizing l₂ l₃ with
  | nil => cases l₃ <;> simp [charListLE]
  | cons a as ih =>
    cases l₂ with
    | nil => simp [charListLE] at h₁
    | cons b bs =>
      cases l₃ with
      | nil => simp [charListLE] at h₂
      | cons c cs =>
        by_cases hab : a < b
        · by_cases hbc : b < c
          · simp [charListLE, lt_trans hab hbc]
          · by_cases hbc' : b = c
            · subst hbc'
              simp [charListLE, hab]
            · simp [charListLE, hbc, hbc'] at h₂
        · by_cases hab' : a = b
          · subst hab'
            simp only [charListLE, if_neg hab, if_pos rfl] at h₁
            by_cases hac : a < c
            · simp [charListLE, hac]
            · by_cases hac' : a = c
              · subst hac'
                simp only [charListLE, if_neg hac, if_pos rfl] at h₂ ⊢
                exact ih bs cs h₁ h₂
              · simp [charListLE, hac, hac'] at h₂
          · simp [charListLE, hab, hab'] at h₁

theorem keyLE_refl (x : Nat × String) : keyLE x x = true := by
  simp [keyLE, strLE, charListLE_refl]

theorem keyLE_total (x y : Nat × String) : (keyLE x y || keyLE y x) = true := by
  rcases Nat.lt_trichotomy x.1 y.1 with h | h | h
  · simp [keyLE, h]
  · simp [keyLE, h, strLE, charListLE_total]
  · simp [keyLE, h, Nat.lt_asymm h, Nat.ne_of_gt h]

theorem keyLE_trans (x y z : Nat × String) (h₁ : keyLE x y = true) (h₂ : keyLE y z = true) :
    keyLE x z = true := by
  by_cases hxy : x.1 < y.1
  · by_cases hyz : y.1 < z.1
    · simp [keyLE, Nat.lt_trans hxy hyz]
    · by_cases hyz' : y.1 = z.1
      · simp [keyLE, hyz' ▸ hxy]
      · simp [keyLE, hyz, hyz'] at h₂
  · by_cases hxy' : x.1 = y.1
    · simp only [keyLE, if_neg hxy, if_pos hxy'] at h₁
      by_cases hyz : y.1 < z.1
      · simp [keyLE, hxy' ▸ hyz]
      · by_cases hyz' : y.1 = z.1
        · simp only [keyLE, if_neg hyz, if_pos hyz'] at h₂
          have hxz : ¬ x.1 < z.1 := hyz' ▸ hxy' ▸ hxy
          simp only [keyLE, if_neg hxz, if_pos (hxy'.trans hyz')]
          exact charListLE_trans _ _ _ h₁ h₂
        · simp [keyLE, hyz, hyz'] at h₂
    · simp [keyLE, hxy, hxy'] at h₁

theorem keyLE_rank_le (x y : Nat × String) (h : keyLE x y = true) : x.1 ≤ y.1 := by
  by_cases hxy : x.1 < y.1
  · exact Nat.le_of_lt hxy
  · by_cases hxy' : x.1 = y.1
    · exact Nat.le_of_eq hxy'
    · simp [keyLE, hxy, hxy'] at h

/-! The stable sort: permutation, sortedness, and stability facts. -/

theorem insertSorted_perm (le : α → α → Bool) (a : α) (l : List α) :
    List.Perm (insertSorted le a l) (a :: l) := by
  induction l with
  | nil => exact List.Perm.refl _
  | cons b bs ih =>
    simp only [insertSorted]
    by_cases h : le a b = true
    · simp [h]
    · simp only [if_neg h]
      exact (ih.cons b).trans (List.Perm.swap a b bs)

theorem stableSort_perm (le : α → α → Bool) (l : List α) : List.Perm (stableSort le l) l := by
  induction l with
  | nil => exact List.Perm.refl _
  | cons a as ih =>
    simp only [stableSort]
    exact (insertSorted_perm le a (stableSort le as)).trans (ih.cons a)

theorem stableSort_ne_nil (le : α → α → Bool) {l : List α} (h : l ≠ []) :
    stableSort le l ≠ [] := by
  intro hn
  apply h
  have := (stableSort_perm le l).length_eq
  rw [hn] at this
  exact List.length_eq_zero.mp this.symm

theorem mem_insertSorted (le : α → α → Bool) {a x : α} {l : List α} :
    x ∈ insertSorted le a l ↔ x = a ∨ x ∈ l := by
  rw [(insertSorted_perm le a l).mem_iff, List.mem_cons]

theorem sorted_insertSorted (le : α → α → Bool)
    (htot : ∀ a b, (le a b || le b a) = true)
    (htr : ∀ a b c, le a b = true → le b c = true → le a c = true)
    (a : α) (l : List α) (hl : l.Pairwise (fun x y => le x y = true)) :
    (insertSorted le a l).Pairwise (fun x y => le x y = true) := by
  induction l with
  | nil => simp [insertSorted]
  | cons b bs ih =>
    rw [List.pairwise_cons] at hl
    obtain ⟨hb, hbs⟩ := hl
    simp only [insertSorted]
    by_cases h : le a b = true
    · rw [if_pos h, List.pairwise_cons]
      refine ⟨?_, List.pairwise_cons.mpr ⟨hb, hbs⟩⟩
      intro x hx
      rcases List.mem_cons.mp hx with rfl | hx'
      · exact h
      · exact htr a b x h (hb x hx')
    · have hba : le b a = true := by
        have := htot a b
        simpa [h] using this
      rw [if_neg h, List.pairwise_cons]
      refine ⟨?_, ih hbs⟩
      intro x hx
      rcases (mem_insertSorted le).mp hx with rfl | hx'
      · exact hba
      · exact hb x hx'

theorem sorted_stableSort (le : α → α → Bool)
    (htot : ∀ a b, (le a b || le b a) = true)
    (htr : ∀ a b c, le a b = true → le b c = true → le a c = true)
    (l : List α) : (stableSort le l).Pairwise (fun x y => le x y = true) := by
  induction l with
  | nil => simp [stableSort]
  | cons a as ih =>
    simp only [stableSort]
    exact sorted_insertSorted le htot htr a (stableSort le as) ih

/-- The head of the stable sort is a minimum of the input list. -/
theorem stableSort_head_min (le : α → α → Bool)
    (htot : ∀ a b, (le a b || le b a) = true)
    (htr : ∀ a b c, le a b = true → le b c = true → le a c = true)
    {l : List α} {i : α} {rest : List α} (h : stableSort le l = i :: rest) :
    ∀ j ∈ l, le i j = true := by
  intro j hj
  have hs := sorted_stableSort le htot htr l
  rw [h, List.pairwise_cons] at hs
  have hm : j ∈ i :: rest := by
    rw [← h]
    exact (stableSort_perm le l).mem_iff.mpr hj
  rcases List.mem_cons.mp hm with rfl | hm'
  · simpa using htot j j
  · exact hs.1 j hm'

/-- Stability at the head: the head of the stable sort is the FIRST element
of the input that sorts no later than it (so among tied minima, the earliest
listed element wins). -/
theorem stableSort_head_first (le : α → α → Bool) (hrefl : ∀ a, le a a = true) :
    ∀ {l : List α} {i : α} {rest : List α}, stableSort le l = i :: rest →
      l.find? (fun j => le j i) = some i := by
  intro l
  induction l with
  | nil => intro i rest h; simp [stableSort] at h
  | cons a as ih =>
    intro i rest h
    simp only [stableSort] at h
    cases hs : stableSort le as with
    | nil =>
      rw [hs] at h
      simp only [insertSorted] at h
      rw [List.cons.injEq] at h
      obtain ⟨rfl, -⟩ := h
      exact List.find?_cons_of_pos _ (hrefl a)
    | cons b bs =>
      rw [hs] at h
      simp only [insertSorted] at h
      by_cases hab : le a b = true
      · rw [if_pos hab, List.cons.injEq] at h
        obtain ⟨rfl, -⟩ := h
        exact List.find?_cons_of_pos _ (hrefl a)
      · rw [if_neg hab, List.cons.injEq] at h
        obtain ⟨rfl, -⟩ := h
        rw [List.find?_cons_of_neg _ (by simpa using hab)]
        exact ih hs

/-! Facts about state-name normalization. -/

/-- Unfolding equation for `normalize_state_name`. -/
theorem normalize_key (w : String) : WorkflowStates.normalize_state_name w =
    (match WorkflowStates.STATE_ALIASES.lookup (trimStr (lowerStr w)) with
     | some canonical => some canonical
     | none =>
       WorkflowStates.WORKFLOW_STATES.find? (fun st => lowerStr st == trimStr (lowerStr w))) := rfl

/-- A successful association-list lookup returns one of the stored values. -/
theorem lookup_mem_values {β : Type} (l : List (String × β)) (k : String) (c : β)
    (h : l.lookup k = some c) : c ∈ l.map Prod.snd := by
  induction l with
  | nil => simp [List.lookup] at h
  | cons p ps ih =>
    rw [List.lookup] at h
    cases hk : k == p.1 with
    | true =>
      simp only [hk] at h
      injection h with h2
      simp only [List.map_cons, List.mem_cons]
      exact Or.inl h2.symm
    | false =>
      simp only [hk] at h
      simp only [List.map_cons, List.mem_cons]
      exact Or.inr (ih h)

/-- Every output of `normalize_state_name` is a canonical state. -/
theorem normalize_output_canonical {x c : String}
    (h : WorkflowStates.normalize_state_name x = some c) :
    c ∈ WorkflowStates.WORKFLOW_STATES := by
  rw [normalize_key] at h
  cases ha : WorkflowStates.STATE_ALIASES.lookup (trimStr (lowerStr x)) with
  | some v =>
    rw [ha] at h
    simp only [Option.some.injEq] at h
    subst h
    have hv := lookup_mem_values _ _ _ ha
    have : ∀ v ∈ WorkflowStates.STATE_ALIASES.map Prod.snd,
        v ∈ WorkflowStates.WORKFLOW_STATES := by decide
    exact this _ hv
  | none =>
    rw [ha] at h
    exact List.mem_of_find?_eq_some h

/-- Canonical states normalize to themselves. -/
theorem canonical_normalizes_to_self :
    ∀ c ∈ WorkflowStates.WORKFLOW_STATES,
      WorkflowStates.normalize_state_name c = some c := by decide

/-! The issue key orders inherit reflexivity, totality and transitivity. -/

theorem sort_le_refl (a : WorkflowStates.LIssue) : WorkflowStates.sort_le a a = true :=
  keyLE_refl _

theorem sort_le_total (a b : WorkflowStates.LIssue) :
    (WorkflowStates.sort_le a b || WorkflowStates.sort_le b a) = true := keyLE_total _ _

theorem sort_le_trans (a b c : WorkflowStates.LIssue)
    (h₁ : WorkflowStates.sort_le a b = true) (h₂ : WorkflowStates.sort_le b c = true) :
    WorkflowStates.sort_le a c = true := keyLE_trans _ _ _ h₁ h₂

theorem gh_le_refl (a : GhDev.GhIssue) : GhDev.gh_le a a = true := keyLE_refl _

theorem gh_le_total (a b : GhDev.GhIssue) :
    (GhDev.gh_le a b || GhDev.gh_le b a) = true := keyLE_total _ _

theorem gh_le_trans (a b c : GhDev.GhIssue)
    (h₁ : GhDev.gh_le a b = true) (h₂ : GhDev.gh_le b c = true) :
    GhDev.gh_le a c = true := keyLE_trans _ _ _ h₁ h₂

/-! Characterization of the two pickup engines via the stable sort. -/

/-- What a successful `get_next_pickup_issue` returns: a candidate that is
minimal in the key order and, among all candidates sorting no later than it
(the tied minima), the first-listed one. -/
theorem get_next_pickup_issue_spec (issues : List WorkflowStates.LIssue)
    (from_state : String) (i : WorkflowStates.LIssue)
    (h : WorkflowStates.get_next_pickup_issue issues from_state = some i) :
    i ∈ WorkflowStates.pickup_candidates issues from_state ∧
    (∀ j ∈ WorkflowStates.pickup_candidates issues from_state,
      WorkflowStates.sort_le i j = true) ∧
    (WorkflowStates.pickup_candidates issues from_state).find?
      (fun j => WorkflowStates.sort_le j i) = some i := by
  cases hn : WorkflowStates.normalize_state_name from_state with
  | none => simp [WorkflowStates.get_next_pickup_issue, hn] at h
  | some s =>
    simp only [WorkflowStates.get_next_pickup_issue, hn] at h
    by_cases he : (WorkflowStates.pickup_candidates issues from_state).isEmpty = true
    · rw [if_pos he] at h
      exact absurd h (by simp)
    · rw [if_neg he] at h
      have hne : WorkflowStates.pickup_candidates issues from_state ≠ [] := by
        intro hnil
        rw [hnil] at he
        exact he rfl
      obtain ⟨b, L, hb⟩ := List.exists_cons_of_ne_nil
        (stableSort_ne_nil WorkflowStates.sort_le hne)
      rw [WorkflowStates.sort_issues_by_priority, hb] at h
      simp only [List.head?] at h
      obtain rfl : b = i := by simpa using h
      refine ⟨?_, ?_, ?_⟩
      · exact (stableSort_perm _ _).mem_iff.mp (hb ▸ List.mem_cons_self b L)
      · exact stableSort_head_min _ sort_le_total sort_le_trans hb
      · exact stableSort_head_first _ sort_le_refl hb

/-- What a successful GitHub `pickup_issue` returns: a merged pickup-column
issue minimal in the `(rank, createdAt)` order. -/
theorem gh_pickup_issue_spec (issues : List GhDev.GhIssue) (i : GhDev.GhIssue)
    (h : GhDev.pickup_issue issues = some i) :
    i ∈ GhDev.merged_pickup_issues issues ∧
    (∀ j ∈ GhDev.merged_pickup_issues issues, GhDev.gh_le i j = true) ∧
    (GhDev.merged_pickup_issues issues).find? (fun j => GhDev.gh_le j i) = some i := by
  simp only [GhDev.pickup_issue] at h
  by_cases he : (GhDev.merged_pickup_issues issues).isEmpty = true
  · rw [if_pos he] at h
    exact absurd h (by simp)
  · rw [if_neg he] at h
    have hne : GhDev.merged_pickup_issues issues ≠ [] := by
      intro hnil
      rw [hnil] at he
      exact he rfl
    obtain ⟨b, L, hb⟩ := List.exists_cons_of_ne_nil (stableSort_ne_nil GhDev.gh_le hne)
    rw [hb] at h
    simp only [List.head?] at h
    obtain rfl : b = i := by simpa using h
    refine ⟨?_, ?_, ?_⟩
    · exact (stableSort_perm _ _).mem_iff.mp (hb ▸ List.mem_cons_self b L)
    · exact stableSort_head_min _ gh_le_total gh_le_trans hb
    · exact stableSort_head_first _ gh_le_refl hb

/-! Claim theorems. -/

/-- Claim C1, amended.  The source's move operation performs no transition
validation at all: whenever the requested target name matches a backend
workflow state case-insensitively, `move_issue_to_state` issues its single
state mutation — even when `is_valid_transition(issue.currentState, target)`
is false — and its outcome never depends on the issue's current state; no
`IllegalTransition` failure exists on this path. -/
theorem C1_move_mutates_without_transition_validation :
    (∀ (issue : LinearApi.IssueRef) (states : List LinearApi.WState) (target : String)
      (st : LinearApi.WState),
      states.find? (fun s => lowerStr s.name == trimStr (lowerStr target)) = some st →
      LinearApi.move_issue_to_state (some issue) states target =
        LinearApi.MoveOutcome.mutate issue.id st.id) ∧
    (∀ (issue : LinearApi.IssueRef) (cs₁ cs₂ : String) (states : List LinearApi.WState)
      (target : String),
      LinearApi.move_issue_to_state (some { issue with currentState := cs₁ }) states target =
        LinearApi.move_issue_to_state (some { issue with currentState := cs₂ }) states target) := by
  constructor
  · intro issue states target st hfind
    simp [LinearApi.move_issue_to_state, hfind]
  · intro issue cs₁ cs₂ states target
    rfl

/-- Claim C1, counterexample to the claim as stated: moving an issue whose
current state is `Done` to target `Todo` — a recognized target with
`is_valid_transition "Done" "Todo" = false` — does NOT fail with an illegal
transition: the backend mutation is issued. -/
theorem C1_counterexample :
    WorkflowStates.normalize_state_name "Todo" = some "Todo" ∧
    WorkflowStates.is_valid_transition "Done" "Todo" = false ∧
    Fixtures.doneIssue.currentState = "Done" ∧
    LinearApi.move_issue_to_state (some Fixtures.doneIssue) Fixtures.teamStates "Todo" =
      LinearApi.MoveOutcome.mutate "issue-1" "st-2" := by decide

/-- Witness for C1 at a concrete input. -/
theorem C1_witness :
    LinearApi.move_issue_to_state (some Fixtures.doneIssue) Fixtures.teamStates "Todo" =
      LinearApi.MoveOutcome.mutate Fixtures.doneIssue.id "st-2" :=
  C1_move_mutates_without_transition_validation.1 Fixtures.doneIssue Fixtures.teamStates
    "Todo" ⟨"Todo", "st-2"⟩ (by decide)

/-- Claim C2 (confirmed): when the requested target state matches no backend
workflow state (case-insensitively, after lowering and stripping), the move
fails with the unknown-state outcome — no mutation — and the failure payload
lists every valid state name. -/
theorem C2_unknown_state_surfaces_full_list :
    ∀ (issue : LinearApi.IssueRef) (states : List LinearApi.WState) (target : String),
      (∀ st ∈ states, lowerStr st.name ≠ trimStr (lowerStr target)) →
      LinearApi.move_issue_to_state (some issue) states target =
        LinearApi.MoveOutcome.unknownState (states.map LinearApi.WState.name) := by
  intro issue states target h
  have hfind : states.find? (fun s => lowerStr s.name == trimStr (lowerStr target)) = none := by
    rw [List.find?_eq_none]
    intro st hst
    simpa using h st hst
  simp [LinearApi.move_issue_to_state, hfind]

/-- Witness for C2 at a concrete input. -/
theorem C2_witness :
    LinearApi.move_issue_to_state (some Fixtures.doneIssue) Fixtures.teamStates
      "not-a-real-state" =
      LinearApi.MoveOutcome.unknownState
        ["Backlog", "Todo", "Dev Ready", "In Progress", "In Review", "Done"] :=
  C2_unknown_state_surfaces_full_list Fixtures.doneIssue Fixtures.teamStates
    "not-a-real-state" (by decide)

/-- Claim C4 (confirmed): `is_valid_transition from to` is true exactly when
both names normalize and either the target's canonical position is at least
the source's (forward or lateral) or the pair is on the backward allow-list;
the three allow-listed backward moves are legal, Done to Todo is not, and an
unrecognized endpoint always makes the transition invalid. -/
theorem C4_is_valid_transition_characterization :
    (∀ f t : String, WorkflowStates.is_valid_transition f t = true ↔
      ∃ fn tn, WorkflowStates.normalize_state_name f = some fn ∧
        WorkflowStates.normalize_state_name t = some tn ∧
        (WorkflowStates.WORKFLOW_STATES.indexOf fn ≤
            WorkflowStates.WORKFLOW_STATES.indexOf tn ∨
          (fn, tn) ∈ WorkflowStates.VALID_BACKWARDS)) ∧
    WorkflowStates.is_valid_transition "In Review" "Dev Ready" = true ∧
    WorkflowStates.is_valid_transition "In Progress" "Dev Ready" = true ∧
    WorkflowStates.is_valid_transition "Dev Ready" "Todo" = true ∧
    WorkflowStates.is_valid_transition "Done" "Todo" = false ∧
    (∀ f t : String, WorkflowStates.normalize_state_name f = none →
      WorkflowStates.is_valid_transition f t = false) ∧
    (∀ f t : String, WorkflowStates.normalize_state_name t = none →
      WorkflowStates.is_valid_transition f t = false) := by
  refine ⟨?_, by decide, by decide, by decide, by decide, ?_, ?_⟩
  · intro f t
    constructor
    · intro h
      cases hf : WorkflowStates.normalize_state_name f with
      | none => simp [WorkflowStates.is_valid_transition, hf] at h
      | some fn =>
        cases ht : WorkflowStates.normalize_state_name t with
        | none => simp [WorkflowStates.is_valid_transition, hf, ht] at h
        | some tn =>
          refine ⟨fn, tn, rfl, rfl, ?_⟩
          simp only [WorkflowStates.is_valid_transition, hf, ht] at h
          by_cases hle : WorkflowStates.WORKFLOW_STATES.indexOf fn ≤
              WorkflowStates.WORKFLOW_STATES.indexOf tn
          · exact Or.inl hle
          · rw [if_neg hle] at h
            exact Or.inr (List.elem_iff.mp h)
    · rintro ⟨fn, tn, hf, ht, hcase⟩
      simp only [WorkflowStates.is_valid_transition, hf, ht]
      rcases hcase with hle | hmem
      · rw [if_pos hle]
      · by_cases hle : WorkflowStates.WORKFLOW_STATES.indexOf fn ≤
            WorkflowStates.WORKFLOW_STATES.indexOf tn
        · rw [if_pos hle]
        · rw [if_neg hle]
          exact List.elem_iff.mpr hmem
  · intro f t hf
    cases ht : WorkflowStates.normalize_state_name t with
    | none => simp [WorkflowStates.is_valid_transition, hf, ht]
    | some tn => simp [WorkflowStates.is_valid_transition, hf, ht]
  · intro f t ht
    cases hf : WorkflowStates.normalize_state_name f with
    | none => simp [WorkflowStates.is_valid_transition, hf, ht]
    | some fn => simp [WorkflowStates.is_valid_transition, hf, ht]

/-- Witness for C4 at a concrete input. -/
theorem C4_witness : WorkflowStates.is_valid_transition "nope" "Todo" = false :=
  C4_is_valid_transition_characterization.2.2.2.2.2.1 "nope" "Todo" (by decide)

/-- Claim C3 (confirmed): pickup merges the issues found in each eligible
column, sorts by `(priority rank, createdAt)` ascending, and returns the
first element (`none` exactly when the merge is empty); on the given inputs
A (Todo, Medium, older) and B (Dev Ready, Critical, newer) it returns B. -/
theorem C3_pickup_merge_sort_select :
    (∀ issues : List GhDev.GhIssue,
      (GhDev.pickup_issue issues = none ↔ GhDev.merged_pickup_issues issues = [])) ∧
    (∀ (issues : List GhDev.GhIssue) (i : GhDev.GhIssue),
      GhDev.pickup_issue issues = some i →
        i ∈ GhDev.merged_pickup_issues issues ∧
        ∀ j ∈ GhDev.merged_pickup_issues issues, GhDev.gh_le i j = true) ∧
    GhDev.pickup_issue [Fixtures.issueA, Fixtures.issueB] = some Fixtures.taggedB := by
  refine ⟨?_, ?_, by decide⟩
  · intro issues
    constructor
    · intro h
      cases hm : GhDev.merged_pickup_issues issues with
      | nil => rfl
      | cons a as =>
        exfalso
        simp only [GhDev.pickup_issue, hm] at h
        rw [if_neg (by simp)] at h
        have hne : (a :: as : List GhDev.GhIssue) ≠ [] := by simp
        obtain ⟨b, L, hb⟩ := List.exists_cons_of_ne_nil (stableSort_ne_nil GhDev.gh_le hne)
        rw [hb] at h
        simp at h
    · intro h
      simp [GhDev.pickup_issue, h]
  · intro issues i h
    obtain ⟨hmem, hmin, -⟩ := gh_pickup_issue_spec issues i h
    exact ⟨hmem, hmin⟩

/-- Witness for C3 at a concrete input. -/
theorem C3_witness :
    Fixtures.taggedB ∈ GhDev.merged_pickup_issues [Fixtures.issueA, Fixtures.issueB] ∧
    ∀ j ∈ GhDev.merged_pickup_issues [Fixtures.issueA, Fixtures.issueB],
      GhDev.gh_le Fixtures.taggedB j = true :=
  C3_pickup_merge_sort_select.2.1 [Fixtures.issueA, Fixtures.issueB] Fixtures.taggedB
    (by decide)

/-- Claim C5, amended.  A missing or unmapped priority gets the worst
(highest-numbered) rank with no error, and the picked issue never ranks
strictly worse than any candidate; but in the Linear backend the mapped
priority code 0 ("No priority") shares the worst rank 5 with unmapped and
missing priorities, so among those the creation date decides and an issue
with a missing/unmapped priority CAN be selected ahead of one whose code is
in the table (see the counterexample). -/
theorem C5_missing_priority_worst_rank :
    (∀ p : Int, WorkflowStates.PRIORITY_ORDER.lookup p = none →
      WorkflowStates.get_priority_rank p = 5) ∧
    (∀ pr ∈ WorkflowStates.PRIORITY_ORDER, pr.2 ≤ 5) ∧
    (∀ issue : GhDev.GhIssue, issue.labels = [] →
      GhDev.get_priority_rank issue = GhDev.PRIORITY_ORDER.length) ∧
    (∀ (issues : List WorkflowStates.LIssue) (from_state : String)
      (i : WorkflowStates.LIssue),
      WorkflowStates.get_next_pickup_issue issues from_state = some i →
      ∀ j ∈ WorkflowStates.pickup_candidates issues from_state,
        WorkflowStates.get_priority_rank (i.priority.getD 0) ≤
          WorkflowStates.get_priority_rank (j.priority.getD 0)) := by
  refine ⟨?_, by decide, ?_, ?_⟩
  · intro p h
    simp [WorkflowStates.get_priority_rank, h]
  · intro issue h
    simp only [GhDev.get_priority_rank, h, List.map_nil]
    decide
  · intro issues from_state i h j hj
    have hmin := (get_next_pickup_issue_spec issues from_state i h).2.1 j hj
    exact keyLE_rank_le (WorkflowStates.sort_key i) (WorkflowStates.sort_key j) hmin

/-- Claim C5, counterexample to the claim as stated: in the Linear backend,
issue X (no priority field, older) is selected ahead of issue Y (priority
code 0, which IS in the static table, newer), because both map to rank 5 and
the tie is broken by creation date. -/
theorem C5_counterexample :
    Fixtures.issueX.priority = none ∧
    WorkflowStates.PRIORITY_ORDER.lookup 0 = some 5 ∧
    Fixtures.issueY.priority = some 0 ∧
    WorkflowStates.get_next_pickup_issue [Fixtures.issueX, Fixtures.issueY] "Dev Ready" =
      some Fixtures.issueX := by decide

/-- Witness for C5 at concrete inputs. -/
theorem C5_witness :
    WorkflowStates.get_priority_rank 7 = 5 ∧
    WorkflowStates.get_priority_rank (Fixtures.issueX.priority.getD 0) ≤
      WorkflowStates.get_priority_rank (Fixtures.issueY.priority.getD 0) :=
  ⟨C5_missing_priority_worst_rank.1 7 (by decide),
   C5_missing_priority_worst_rank.2.2.2 [Fixtures.issueX, Fixtures.issueY] "Dev Ready"
     Fixtures.issueX (by decide) Fixtures.issueY (by decide)⟩

/-- Claim C6, amended.  `normalize_state_name` lower-cases and strips
SURROUNDING WHITESPACE only before the alias and canonical lookups: any
spelling differing from a canonical name or a listed alias only by letter
case or surrounding whitespace resolves to that canonical state, and the
three quoted spellings all resolve to "Dev Ready"; but hyphen/underscore
substitution is NOT stripped, so it resolves only for the specific variants
present in the alias table (counterexample: "dev-ready" is unrecognized). -/
theorem C6_normalize_case_whitespace_alias :
    (∀ w c : String, c ∈ WorkflowStates.WORKFLOW_STATES →
      trimStr (lowerStr w) = lowerStr c →
      WorkflowStates.normalize_state_name w = some c) ∧
    (∀ w k c : String, WorkflowStates.STATE_ALIASES.lookup k = some c →
      trimStr (lowerStr w) = k →
      WorkflowStates.normalize_state_name w = some c) ∧
    WorkflowStates.normalize_state_name "dev ready" = some "Dev Ready" ∧
    WorkflowStates.normalize_state_name "Dev Ready" = some "Dev Ready" ∧
    WorkflowStates.normalize_state_name "ready for dev" = some "Dev Ready" := by
  refine ⟨?_, ?_, by decide, by decide, by decide⟩
  · intro w c hc hw
    simp only [WorkflowStates.WORKFLOW_STATES, List.mem_cons, List.not_mem_nil,
      or_false] at hc
    rcases hc with rfl | rfl | rfl | rfl | rfl | rfl <;>
      (rw [normalize_key, hw]; decide)
  · intro w k c hl hw
    rw [normalize_key, hw, hl]

/-- Claim C6, counterexample to the claim as stated: "dev-ready" differs
from the canonical "Dev Ready" only by a hyphen substituted for the space
(and case), yet it does not normalize. -/
theorem C6_counterexample :
    "dev-ready".data.map (fun c => if c = '-' then ' ' else c) = "dev ready".data ∧
    WorkflowStates.normalize_state_name "dev ready" = some "Dev Ready" ∧
    WorkflowStates.normalize_state_name "dev-ready" = none := by decide

/-- Witness for C6 at a concrete input. -/
theorem C6_witness : WorkflowStates.normalize_state_name " DEV READY " = some "Dev Ready" :=
  C6_normalize_case_whitespace_alias.1 " DEV READY " "Dev Ready" (by decide) (by decide)

/-- Claim C7 (confirmed): normalization is idempotent on recognized inputs —
whatever `normalize_state_name` returns is a canonical state, and canonical
states normalize to themselves. -/
theorem C7_normalize_idempotent :
    ∀ x c : String, WorkflowStates.normalize_state_name x = some c →
      WorkflowStates.normalize_state_name c = some c := by
  intro x c h
  exact canonical_normalizes_to_self c (normalize_output_canonical h)

/-- Witness for C7 at a concrete input. -/
theorem C7_witness : WorkflowStates.normalize_state_name "In Progress" = some "In Progress" :=
  C7_normalize_idempotent "wip" "In Progress" (by decide)

/-- Claim C8 (confirmed): pickup over a backend with zero matching issues
returns the empty result, not an error: the empty case is the value
`none` / `Except.ok none`, distinct by construction from the propagated
backend failure `Except.error` (in the source, a failed fetch terminates the
process inside `graphql` and never reaches the empty-result return). -/
theorem C8_empty_pickup_is_none_not_error :
    (∀ from_state : String, WorkflowStates.get_next_pickup_issue [] from_state = none) ∧
    (∀ (ε : Type) (fetch : String → Except ε (List WorkflowStates.LIssue))
      (status : Option String), (∀ s, fetch s = .ok []) →
      LinearDev.pickup_issueE fetch status = .ok none) ∧
    (∀ (ε : Type) (e : ε),
      (Except.ok none : Except ε (Option WorkflowStates.LIssue)) ≠ Except.error e) := by
  refine ⟨?_, ?_, ?_⟩
  · intro fs
    cases hn : WorkflowStates.normalize_state_name fs with
    | none => simp [WorkflowStates.get_next_pickup_issue, hn]
    | some s =>
      simp [WorkflowStates.get_next_pickup_issue, hn, WorkflowStates.pickup_candidates]
  · intro ε fetch status hfetch
    have hg : ∀ sts, LinearDev.gather_issuesE fetch sts = .ok [] := by
      intro sts
      induction sts with
      | nil => rfl
      | cons st rest ih =>
        cases hn : WorkflowStates.normalize_state_name st with
        | none => simp [LinearDev.gather_issuesE, hn, ih]
        | some n => simp [LinearDev.gather_issuesE, hn, hfetch, ih]
    simp [LinearDev.pickup_issueE, hg]
  · intro ε e h
    exact Except.noConfusion h

/-- Witness for C8 at a concrete input. -/
theorem C8_witness :
    LinearDev.pickup_issueE
      (fun _ => Except.ok [] : String → Except Unit (List WorkflowStates.LIssue)) none =
      Except.ok none :=
  C8_empty_pickup_is_none_not_error.2.1 Unit _ none (fun _ => rfl)

/-- Claim C9 (confirmed): selection is a pure function of the snapshot (two
runs over equal snapshots agree), the selected issue is minimal in the
`(rank, createdAt)` order over the candidates, and — by stability of the
sort — it is the FIRST candidate sorting no later than itself, so among
tied issues the earliest-listed one wins. -/
theorem C9_pickup_deterministic_and_stable :
    (∀ (issues₁ issues₂ : List WorkflowStates.LIssue) (from_state : String),
      issues₁ = issues₂ →
      WorkflowStates.get_next_pickup_issue issues₁ from_state =
        WorkflowStates.get_next_pickup_issue issues₂ from_state) ∧
    (∀ (issues : List WorkflowStates.LIssue) (from_state : String)
      (i : WorkflowStates.LIssue),
      WorkflowStates.get_next_pickup_issue issues from_state = some i →
      (∀ j ∈ WorkflowStates.pickup_candidates issues from_state,
        WorkflowStates.sort_le i j = true) ∧
      (WorkflowStates.pickup_candidates issues from_state).find?
        (fun j => WorkflowStates.sort_le j i) = some i) := by
  constructor
  · intro issues₁ issues₂ fs h
    rw [h]
  · intro issues fs i h
    obtain ⟨-, hmin, hfirst⟩ := get_next_pickup_issue_spec issues fs i h
    exact ⟨hmin, hfirst⟩

/-- Witness for C9 at a concrete input: two issues tied on rank and
creation date; the first-listed one is returned and is the first tied
candidate. -/
theorem C9_witness :
    (∀ j ∈ WorkflowStates.pickup_candidates [Fixtures.tied1, Fixtures.tied2] "Todo",
      WorkflowStates.sort_le Fixtures.tied1 j = true) ∧
    (WorkflowStates.pickup_candidates [Fixtures.tied1, Fixtures.tied2] "Todo").find?
      (fun j => WorkflowStates.sort_le j Fixtures.tied1) = some Fixtures.tied1 :=
  C9_pickup_deterministic_and_stable.2 [Fixtures.tied1, Fixtures.tied2] "Todo"
    Fixtures.tied1 (by decide)

/-- Claim C10 (confirmed): a pickup with an explicit status filter that does
not normalize returns `none` — silently, with no error and no report of the
unrecognized name — and no backend fetch is made for it: the result is the
same for EVERY fetch function, including one that always fails. -/
theorem C10_unrecognized_filter_yields_none_without_fetch :
    ∀ status : String, WorkflowStates.normalize_state_name status = none →
      (∀ fetch : String → List WorkflowStates.LIssue,
        LinearDev.pickup_issue fetch (some status) = none) ∧
      (∀ (ε : Type) (fetchE : String → Except ε (List WorkflowStates.LIssue)),
        LinearDev.pickup_issueE fetchE (some status) = .ok none) := by
  intro status h
  constructor
  · intro fetch
    simp [LinearDev.pickup_issue, LinearDev.statuses_to_check, LinearDev.gather_issues, h]
  · intro ε fetchE
    simp [LinearDev.pickup_issueE, LinearDev.statuses_to_check, LinearDev.gather_issuesE, h]

/-- Witness for C10 at a concrete input (the fallible fetch always errors,
yet the result is still the empty success). -/
theorem C10_witness :
    LinearDev.pickup_issue (fun _ => [Fixtures.issueX]) (some "not-a-real-state") = none ∧
    LinearDev.pickup_issueE
      (fun _ => Except.error () : String → Except Unit (List WorkflowStates.LIssue))
      (some "not-a-real-state") = Except.ok none :=
  ⟨(C10_unrecognized_filter_yields_none_without_fetch "not-a-real-state" (by decide)).1 _,
   (C10_unrecognized_filter_yields_none_without_fetch "not-a-real-state" (by decide)).2 Unit _⟩
